import Mathlib

/-!
# Verification of the `di2hap` diploid-to-haploid genotype converter

A shallow embedding of `src/main.cpp` (the `di2hap` tool): the genotype
ploidy-reduction engine, the homozygosity verifier, the sex-map driven
sample ploidy map construction, and the streaming conversion pipeline.

Genotype buffers (`std::vector<std::int8_t>` in the source) are modelled
as `List Int`; the sample ploidy map (`std::vector<int>` holding `0`/`1`)
is modelled as `List Bool`.  C++ `std::vector::operator[]` reads and
writes are modelled by `List.getD`/`List.set`, which are total where the
C++ is undefined out of range; all theorems below constrain indices to be
in range, except where the point is precisely that the source performs an
unguarded operation (the zero-sample division).
-/

namespace Di2hap

/-- `typedef std::int8_t gt_type;` — genotype values, modelled as `Int`
(only equality tests and copies are performed on them). -/
abbrev gt_type := Int

/-- Modelled from the spec: the end-of-vector sentinel
`savvy::typed_value::end_of_vector_value<gt_type>()` comes from the external
variant-file library (savvy), which is not part of this repository.  The spec
describes it as a reserved extremal value of the genotype value type; for
`int8` savvy reserves `-127` (one past the missing value `-128`).  Its exact
value is irrelevant to every theorem below; only that it is a fixed constant. -/
def end_of_vector_value : gt_type := -127

/-- `std::vector::resize(n)`: keep the first `n` elements, value-initialize
(zero) any new elements when growing. -/
def vecResize (n : Nat) (v : List gt_type) : List gt_type :=
  v.take n ++ List.replicate (n - v.length) 0

/-- The in-place write loop of the full-reduction branch of `main`
(src/main.cpp lines 275-276):
`for (std::size_t i = 0; i < haploid_count; ++i) gt[i] = gt[i * stride];`. -/
def fullReduceWrites (stride n : Nat) (gt : List gt_type) : List gt_type :=
  (List.range n).foldl (fun g i => g.set i (g.getD (i * stride) 0)) gt

/-- Full reduction (src/main.cpp lines 275-278): the in-place write loop
followed by `gt.resize(haploid_count)`; `n` is `haploid_count`, which in this
branch equals the sample count. -/
def fullReduce (stride n : Nat) (gt : List gt_type) : List gt_type :=
  vecResize n (fullReduceWrites stride n gt)

/-- The naive out-of-place description of full reduction, written from the
spec's words ("keep only the first copy (`buffer[i*stride]`) and discard the
rest"): a fresh buffer of the original first copies.  Used only to compare
with the in-place `fullReduce` taken from the source (refinement claim). -/
def fullReduceSpec (stride n : Nat) (gt : List gt_type) : List gt_type :=
  (List.range n).map (fun i => gt.getD (i * stride) 0)

/-! ## `List.getD`/`List.set` helper lemmas -/

theorem getD_set_self {α} (l : List α) (i : Nat) (a d : α) (h : i < l.length) :
    (l.set i a).getD i d = a := by
  simp [List.getD_eq_getElem?_getD, List.getElem?_set_self h]

theorem getD_set_ne {α} (l : List α) {i j : Nat} (a d : α) (h : i ≠ j) :
    (l.set i a).getD j d = l.getD j d := by
  simp [List.getD_eq_getElem?_getD, List.getElem?_set_ne h]

theorem length_vecResize (n : Nat) (v : List gt_type) :
    (vecResize n v).length = n := by
  simp only [vecResize, List.length_append, List.length_take, List.length_replicate]
  omega

theorem getD_vecResize_of_lt (n : Nat) (v : List gt_type) (i : Nat) (d : gt_type)
    (hi : i < n) (hn : n ≤ v.length) :
    (vecResize n v).getD i d = v.getD i d := by
  have hrep : n - v.length = 0 := Nat.sub_eq_zero_of_le hn
  simp only [vecResize, hrep, List.replicate, List.append_nil]
  simp [List.getD_eq_getElem?_getD, List.getElem?_take, hi]

/-! ## The full-reduction write loop

The central invariant: after the first `n` iterations of
`gt[i] = gt[i * stride]`, positions `< n` hold the first copy of their
sample and positions `≥ n` are untouched.  No read is clobbered because
iteration `i` reads index `i * stride ≥ i` and has only written indices
`< i` so far (`stride ≥ 1`). -/

theorem fullReduceWrites_invariant (stride : Nat) (hs : 1 ≤ stride)
    (gt : List gt_type) (n : Nat) :
    (fullReduceWrites stride n gt).length = gt.length ∧
    (∀ i, i < n → i < gt.length →
      (fullReduceWrites stride n gt).getD i 0 = gt.getD (i * stride) 0) ∧
    (∀ p, n ≤ p → (fullReduceWrites stride n gt).getD p 0 = gt.getD p 0) := by
  induction n with
  | zero =>
    refine ⟨rfl, ?_, ?_⟩
    · intro i hi; omega
    · intro p _; rfl
  | succ n ih =>
    obtain ⟨ihlen, ihlow, ihhigh⟩ := ih
    have hstep : fullReduceWrites stride (n + 1) gt =
        (fullReduceWrites stride n gt).set n
          ((fullReduceWrites stride n gt).getD (n * stride) 0) := by
      simp only [fullReduceWrites, List.range_succ, List.foldl_append, List.foldl_cons,
        List.foldl_nil]
    have hread : (fullReduceWrites stride n gt).getD (n * stride) 0 =
        gt.getD (n * stride) 0 := by
      exact ihhigh (n * stride) (Nat.le_mul_of_pos_right n hs)
    refine ⟨?_, ?_, ?_⟩
    · rw [hstep, List.length_set, ihlen]
    · intro i hi hilen
      rcases Nat.lt_or_ge i n with hlt | hge
      · rw [hstep, getD_set_ne _ _ _ (Nat.ne_of_gt hlt), ihlow i hlt hilen]
      · have hieq : i = n := by omega
        subst hieq
        rw [hstep, getD_set_self _ _ _ _ (by rw [ihlen]; exact hilen), hread]
    · intro p hp
      rw [hstep, getD_set_ne _ _ _ (by omega), ihhigh p (by omega)]

/-- `std::accumulate(sex_map.begin(), sex_map.end(), 0)` (src/main.cpp line 259):
the number of samples whose flag is set (`1` in the source's `vector<int>`,
`true` here). -/
def haploid_count (m : List Bool) : Nat :=
  m.foldl (fun n b => n + (if b then 1 else 0)) 0

theorem eq_of_getD {l₁ l₂ : List gt_type} (hlen : l₁.length = l₂.length)
    (h : ∀ i, i < l₁.length → l₁.getD i 0 = l₂.getD i 0) : l₁ = l₂ := by
  apply List.ext_getElem hlen
  intro n h₁ h₂
  have hh := h n h₁
  rwa [List.getD_eq_getElem _ _ h₁, List.getD_eq_getElem _ _ h₂] at hh

theorem fullReduce_length (stride n : Nat) (gt : List gt_type) :
    (fullReduce stride n gt).length = n :=
  length_vecResize n _

theorem fullReduce_getD (stride n : Nat) (hs : 1 ≤ stride) (gt : List gt_type)
    (hnle : n ≤ gt.length) (i : Nat) (hi : i < n) :
    (fullReduce stride n gt).getD i 0 = gt.getD (i * stride) 0 := by
  obtain ⟨wlen, wlow, _⟩ := fullReduceWrites_invariant stride hs gt n
  rw [fullReduce, getD_vecResize_of_lt _ _ _ _ hi (by rw [wlen]; exact hnle)]
  exact wlow i hi (Nat.lt_of_lt_of_le hi hnle)

/-- C1: Full reduction correctness — for every genotype buffer of length
`sample_count * stride` (`stride ≥ 1`, `sample_count ≥ 1`), when every sample
is marked haploid (`haploid_count == sample_count`), the full-reduction branch
produces a buffer of length exactly `sample_count` whose entry at every sample
index `i` is `input[i * stride]`, the first copy of sample `i`. -/
theorem full_reduction_correct (m : List Bool) (stride : Nat) (gt : List gt_type)
    (hs : 1 ≤ stride) (_hn : 1 ≤ m.length)
    (hall : haploid_count m = m.length)
    (hlen : gt.length = m.length * stride) :
    (fullReduce stride (haploid_count m) gt).length = m.length ∧
    ∀ i, i < m.length →
      (fullReduce stride (haploid_count m) gt).getD i 0 = gt.getD (i * stride) 0 := by
  rw [hall]
  have hnle : m.length ≤ gt.length := by
    rw [hlen]; exact Nat.le_mul_of_pos_right m.length hs
  exact ⟨fullReduce_length _ _ _, fun i hi => fullReduce_getD _ _ hs _ hnle i hi⟩

theorem full_reduction_correct_witness :
    ((1 : Nat) ≤ 2 ∧ 1 ≤ List.length [true, true] ∧
      haploid_count [true, true] = List.length [true, true] ∧
      List.length ([1, 1, 0, 0] : List gt_type) = List.length [true, true] * 2) ∧
    (fullReduce 2 (haploid_count [true, true]) [1, 1, 0, 0]).length =
      List.length [true, true] ∧
    ∀ i, i < List.length [true, true] →
      (fullReduce 2 (haploid_count [true, true]) ([1, 1, 0, 0] : List gt_type)).getD i 0 =
        ([1, 1, 0, 0] : List gt_type).getD (i * 2) 0 :=
  ⟨⟨by decide, by decide, by decide, by decide⟩,
    full_reduction_correct [true, true] 2 [1, 1, 0, 0]
      (by decide) (by decide) (by decide) (by decide)⟩

/-- C9: Idempotence of full reduction on stride-1 input — on a buffer whose
length equals the sample count (stride 1), full reduction is the identity, so
applying it twice equals applying it once. -/
theorem full_reduction_stride_one_identity (gt : List gt_type) :
    fullReduce 1 gt.length gt = gt ∧
    fullReduce 1 gt.length (fullReduce 1 gt.length gt) = fullReduce 1 gt.length gt := by
  have h1 : fullReduce 1 gt.length gt = gt := by
    apply eq_of_getD (fullReduce_length _ _ _)
    intro i hi
    rw [fullReduce_length] at hi
    rw [fullReduce_getD 1 gt.length (Nat.le_refl 1) gt (Nat.le_refl _) i hi, Nat.mul_one]
  exact ⟨h1, by rw [h1]; exact h1⟩

/-- C10: The in-place full-reduction loop (ascending writes
`gt[i] = gt[i * stride]` followed by truncation to `sample_count`) computes the
same buffer as the naive out-of-place definition that collects the original
first copies `input[i * stride]`; no write clobbers a value a later iteration
still reads, since later iteration `i' > i` reads index `i' * stride ≥ i' > i`. -/
theorem fullReduce_eq_spec (n stride : Nat) (gt : List gt_type)
    (hs : 1 ≤ stride) (hlen : gt.length = n * stride) :
    fullReduce stride n gt = fullReduceSpec stride n gt := by
  have hnle : n ≤ gt.length := by
    rw [hlen]; exact Nat.le_mul_of_pos_right n hs
  apply List.ext_getElem
  · rw [fullReduce_length, fullReduceSpec, List.length_map, List.length_range]
  · intro i hlt1 hlt2
    have hin : i < n := by rw [fullReduce_length] at hlt1; exact hlt1
    have hfull : (fullReduce stride n gt)[i] = gt.getD (i * stride) 0 := by
      rw [← List.getD_eq_getElem _ 0 hlt1]
      exact fullReduce_getD stride n hs gt hnle i hin
    have hspec : (fullReduceSpec stride n gt)[i] = gt.getD (i * stride) 0 := by
      simp [fullReduceSpec]
    rw [hfull, hspec]

theorem fullReduce_eq_spec_witness :
    ((1 : Nat) ≤ 2 ∧ List.length ([5, 6, 7, 8] : List gt_type) = 2 * 2) ∧
    fullReduce 2 2 ([5, 6, 7, 8] : List gt_type) =
      fullReduceSpec 2 2 ([5, 6, 7, 8] : List gt_type) :=
  ⟨⟨by decide, by decide⟩, fullReduce_eq_spec 2 2 [5, 6, 7, 8] (by decide) (by decide)⟩

/-! ## Partial reduction -/

/-- Helper for reasoning about the sentinel-write loop of partial reduction:
the first `mc` iterations (`j = 1 .. mc`) of the loop body
`gt[i * stride + j] = end_of_vector_value`. -/
def setTail (i stride mc : Nat) (g : List gt_type) : List gt_type :=
  (List.range' 1 mc).foldl (fun g2 j => g2.set (i * stride + j) end_of_vector_value) g

/-- The inner loop of the partial-reduction branch (src/main.cpp lines 289-290):
`for (std::size_t j = 1; j < stride; ++j)`
`  gt[i * stride + j] = savvy::typed_value::end_of_vector_value<gt_type>();`
— `stride - 1` iterations, `j` running over `1 .. stride - 1`. -/
def blankTail (stride i : Nat) (g : List gt_type) : List gt_type :=
  setTail i stride (stride - 1) g

theorem setTail_step (i stride mc : Nat) (g : List gt_type) :
    setTail i stride (mc + 1) g =
      (setTail i stride mc g).set (i * stride + (1 + mc)) end_of_vector_value := by
  simp only [setTail, List.range'_1_concat, List.foldl_append, List.foldl_cons,
    List.foldl_nil]

theorem setTail_length (i stride : Nat) (g : List gt_type) :
    ∀ mc, (setTail i stride mc g).length = g.length := by
  intro mc
  induction mc with
  | zero => rfl
  | succ mc ih => rw [setTail_step, List.length_set, ih]

theorem setTail_getD_outside (i stride : Nat) (g : List gt_type) :
    ∀ mc p, p ≤ i * stride ∨ i * stride + mc + 1 ≤ p →
      (setTail i stride mc g).getD p 0 = g.getD p 0 := by
  intro mc
  induction mc with
  | zero => intro p _; rfl
  | succ mc ih =>
    intro p hp
    rw [setTail_step, getD_set_ne _ _ _ (by omega), ih p (by omega)]

theorem setTail_getD_inside (i stride : Nat) (g : List gt_type) :
    ∀ mc p, i * stride < p → p < i * stride + mc + 1 → p < g.length →
      (setTail i stride mc g).getD p 0 = end_of_vector_value := by
  intro mc
  induction mc with
  | zero => intro p h1 h2 _; omega
  | succ mc ih =>
    intro p h1 h2 h3
    rcases Nat.lt_or_ge p (i * stride + mc + 1) with hlt | hge
    · rw [setTail_step, getD_set_ne _ _ _ (by omega), ih p h1 hlt h3]
    · have hpeq : p = i * stride + (1 + mc) := by omega
      subst hpeq
      rw [setTail_step, getD_set_self _ _ _ _ (by rw [setTail_length]; exact h3)]

theorem blankTail_length (stride i : Nat) (g : List gt_type) :
    (blankTail stride i g).length = g.length :=
  setTail_length i stride g (stride - 1)

theorem blankTail_getD_outside (stride i : Nat) (g : List gt_type) (p : Nat)
    (h : p ≤ i * stride ∨ i * stride + stride ≤ p) :
    (blankTail stride i g).getD p 0 = g.getD p 0 := by
  cases stride with
  | zero => rfl
  | succ s => exact setTail_getD_outside i (s + 1) g s p (by omega)

theorem blankTail_getD_inside (stride i : Nat) (g : List gt_type) (p : Nat)
    (h1 : i * stride < p) (h2 : p < i * stride + stride) (h3 : p < g.length) :
    (blankTail stride i g).getD p 0 = end_of_vector_value := by
  cases stride with
  | zero => omega
  | succ s => exact setTail_getD_inside i (s + 1) g s p h1 (by omega) h3

/-- The first `k` iterations of the outer loop of the partial-reduction branch
(src/main.cpp lines 285-292); `partialReduce` below is this at
`k = sex_map.size()`. -/
def partialRun (stride : Nat) (m : List Bool) (k : Nat) (gt : List gt_type) :
    List gt_type :=
  (List.range k).foldl (fun g i => if m.getD i false then blankTail stride i g else g) gt

/-- Partial reduction (src/main.cpp lines 285-292):
`for (std::size_t i = 0; i < sex_map.size(); ++i)`
`  if (sex_map[i]) for (std::size_t j = 1; j < stride; ++j)`
`    gt[i * stride + j] = end_of_vector;`
— the buffer is not resized. -/
def partialReduce (stride : Nat) (m : List Bool) (gt : List gt_type) : List gt_type :=
  partialRun stride m m.length gt

theorem partialRun_step (stride : Nat) (m : List Bool) (k : Nat) (gt : List gt_type) :
    partialRun stride m (k + 1) gt =
      if m.getD k false then blankTail stride k (partialRun stride m k gt)
      else partialRun stride m k gt := by
  simp only [partialRun, List.range_succ, List.foldl_append, List.foldl_cons,
    List.foldl_nil]

theorem partialRun_invariant (stride : Nat) (m : List Bool) (gt : List gt_type) :
    ∀ k, (partialRun stride m k gt).length = gt.length ∧
    (∀ p, k * stride ≤ p → (partialRun stride m k gt).getD p 0 = gt.getD p 0) ∧
    (∀ i, i < k →
      (m.getD i false = true →
        (partialRun stride m k gt).getD (i * stride) 0 = gt.getD (i * stride) 0 ∧
        ∀ j, 1 ≤ j → j < stride → i * stride + j < gt.length →
          (partialRun stride m k gt).getD (i * stride + j) 0 = end_of_vector_value) ∧
      (m.getD i false = false →
        ∀ j, j < stride →
          (partialRun stride m k gt).getD (i * stride + j) 0 =
            gt.getD (i * stride + j) 0)) := by
  intro k
  induction k with
  | zero =>
    refine ⟨rfl, fun p _ => rfl, fun i hi => ?_⟩
    omega
  | succ k ih =>
    obtain ⟨ihlen, ihout, ihdone⟩ := ih
    have hks : (k + 1) * stride = k * stride + stride := by ring
    by_cases hk : m.getD k false = true
    · have hstep : partialRun stride m (k + 1) gt =
          blankTail stride k (partialRun stride m k gt) := by
        rw [partialRun_step, if_pos hk]
      refine ⟨?_, ?_, ?_⟩
      · rw [hstep, blankTail_length, ihlen]
      · intro p hp
        rw [hstep, blankTail_getD_outside _ _ _ _ (by right; omega),
          ihout p (by omega)]
      · intro i hi
        rcases Nat.lt_or_ge i k with hik | hik
        · have hle : (i + 1) * stride ≤ k * stride :=
            Nat.mul_le_mul_right stride hik
          have his : (i + 1) * stride = i * stride + stride := by ring
          constructor
          · intro hflag
            obtain ⟨hfirst, htail⟩ := (ihdone i hik).1 hflag
            constructor
            · rw [hstep, blankTail_getD_outside _ _ _ _ (by left; omega), hfirst]
            · intro j hj1 hj2 hjlen
              rw [hstep, blankTail_getD_outside _ _ _ _ (by left; omega),
                htail j hj1 hj2 hjlen]
          · intro hflag
            intro j hj
            rw [hstep, blankTail_getD_outside _ _ _ _ (by left; omega),
              (ihdone i hik).2 hflag j hj]
        · have hieq : i = k := by omega
          subst hieq
          constructor
          · intro _
            constructor
            · rw [hstep, blankTail_getD_outside _ _ _ _ (by left; omega),
                ihout (i * stride) (Nat.le_refl _)]
            · intro j hj1 hj2 hjlen
              rw [hstep]
              exact blankTail_getD_inside stride i _ (i * stride + j)
                (by omega) (by omega) (by rw [ihlen]; exact hjlen)
          · intro hflag
            rw [hk] at hflag
            exact Bool.noConfusion hflag
    · have hkf : m.getD k false = false := by
        cases hmk : m.getD k false with
        | false => rfl
        | true => exact absurd hmk hk
      have hstep : partialRun stride m (k + 1) gt = partialRun stride m k gt := by
        rw [partialRun_step, hkf, if_neg (by simp)]
      refine ⟨by rw [hstep]; exact ihlen, ?_, ?_⟩
      · intro p hp
        rw [hstep, ihout p (by omega)]
      · intro i hi
        rcases Nat.lt_or_ge i k with hik | hik
        · rw [hstep]; exact ihdone i hik
        · have hieq : i = k := by omega
          subst hieq
          constructor
          · intro hflag
            rw [hflag] at hkf
            exact Bool.noConfusion hkf
          · intro _
            intro j hj
            rw [hstep, ihout (i * stride + j) (by omega)]

/-- C2: Partial reduction correctness — for a buffer of length
`sample_count * stride` and a ploidy map with at least one clear flag
(`haploid_count ≠ sample_count`), the partial-reduction branch keeps the
buffer length (and hence the stride) unchanged; each flagged sample keeps its
first copy and has copies `1 .. stride-1` overwritten with the end-of-vector
sentinel; every unflagged sample's whole span is unchanged. -/
theorem partial_reduction_correct (m : List Bool) (stride : Nat) (gt : List gt_type)
    (hlen : gt.length = m.length * stride)
    (_hnotall : haploid_count m ≠ m.length) :
    (partialReduce stride m gt).length = gt.length ∧
    ∀ i, i < m.length →
      (m.getD i false = true →
        (partialReduce stride m gt).getD (i * stride) 0 = gt.getD (i * stride) 0 ∧
        ∀ j, 1 ≤ j → j < stride →
          (partialReduce stride m gt).getD (i * stride + j) 0 = end_of_vector_value) ∧
      (m.getD i false = false →
        ∀ j, j < stride →
          (partialReduce stride m gt).getD (i * stride + j) 0 =
            gt.getD (i * stride + j) 0) := by
  obtain ⟨rlen, _, rdone⟩ := partialRun_invariant stride m gt m.length
  refine ⟨rlen, fun i hi => ⟨?_, fun hflag j hj => (rdone i hi).2 hflag j hj⟩⟩
  intro hflag
  obtain ⟨hfirst, htail⟩ := (rdone i hi).1 hflag
  refine ⟨hfirst, fun j hj1 hj2 => htail j hj1 hj2 ?_⟩
  have hlt : i * stride + j < (i + 1) * stride := by
    have : (i + 1) * stride = i * stride + stride := by ring
    omega
  have hle : (i + 1) * stride ≤ m.length * stride :=
    Nat.mul_le_mul_right stride hi
  omega

theorem partial_reduction_correct_witness :
    (List.length ([1, 1, 0, 1] : List gt_type) = List.length [true, false] * 2 ∧
      haploid_count [true, false] ≠ List.length [true, false]) ∧
    (partialReduce 2 [true, false] ([1, 1, 0, 1] : List gt_type)).length =
      List.length ([1, 1, 0, 1] : List gt_type) ∧
    ∀ i, i < List.length [true, false] →
      (List.getD [true, false] i false = true →
        (partialReduce 2 [true, false] ([1, 1, 0, 1] : List gt_type)).getD (i * 2) 0 =
          ([1, 1, 0, 1] : List gt_type).getD (i * 2) 0 ∧
        ∀ j, 1 ≤ j → j < 2 →
          (partialReduce 2 [true, false] ([1, 1, 0, 1] : List gt_type)).getD
            (i * 2 + j) 0 = end_of_vector_value) ∧
      (List.getD [true, false] i false = false →
        ∀ j, j < 2 →
          (partialReduce 2 [true, false] ([1, 1, 0, 1] : List gt_type)).getD
            (i * 2 + j) 0 = ([1, 1, 0, 1] : List gt_type).getD (i * 2 + j) 0) :=
  ⟨⟨by decide, by decide⟩,
    partial_reduction_correct [true, false] 2 [1, 1, 0, 1] (by decide) (by decide)⟩

/-! ## The homozygosity verifier -/

/-- `std::size_t stride = gt.size() / sex_map.size();` — the per-record stride
as computed in both `verify` and `main` (src/main.cpp lines 176 and 268).
Lean's `Nat` division is total; the C++ expression divides by zero when the
sample list is empty (see the zero-sample claim below). -/
def strideOf (gt : List gt_type) (m : List Bool) : Nat := gt.length / m.length

/-- The homozygosity verifier (src/main.cpp lines 174-199): for every sample
with its flag set, compare the first copy against each later copy in its span;
report failure (`false`) on any mismatch.  Unflagged samples are skipped
(`if (!sex_map[i]) continue;`). -/
def verify (gt : List gt_type) (m : List Bool) : Bool :=
  (List.range m.length).all (fun i =>
    if m.getD i false then
      (List.range' 1 (strideOf gt m - 1)).all (fun j =>
        gt.getD (i * strideOf gt m) 0 == gt.getD (i * strideOf gt m + j) 0)
    else true)

theorem verify_eq_true_iff (m : List Bool) (stride : Nat) (gt : List gt_type)
    (hn : 1 ≤ m.length) (hlen : gt.length = m.length * stride) :
    verify gt m = true ↔
      ∀ i, i < m.length → m.getD i false = true →
        ∀ j, 1 ≤ j → j < stride →
          gt.getD (i * stride) 0 = gt.getD (i * stride + j) 0 := by
  have hs : strideOf gt m = stride := by
    rw [strideOf, hlen]; exact Nat.mul_div_cancel_left stride hn
  simp only [verify, hs]
  rw [List.all_eq_true]
  constructor
  · intro h i hi hflag j hj1 hj2
    have hii := h i (List.mem_range.mpr hi)
    rw [hflag, if_pos rfl, List.all_eq_true] at hii
    have hj := hii j (List.mem_range'_1.mpr ⟨hj1, by omega⟩)
    exact beq_iff_eq.mp hj
  · intro h i hi
    rw [List.mem_range] at hi
    cases hflag : m.getD i false with
    | false => rw [if_neg (by simp)]
    | true =>
      rw [if_pos rfl, List.all_eq_true]
      intro j hj
      rw [List.mem_range'_1] at hj
      exact beq_iff_eq.mpr (h i hi hflag j hj.1 (by omega))

/-- C3: Verifier soundness and completeness — for a buffer of length
`sample_count * stride` and any ploidy map, `verify` returns failure iff some
flagged sample has two unequal values among its `stride` copies; unflagged
samples are never compared and never cause failure. -/
theorem verifier_sound_complete (m : List Bool) (stride : Nat) (gt : List gt_type)
    (hn : 1 ≤ m.length) (hlen : gt.length = m.length * stride) :
    verify gt m = false ↔
      ∃ i, i < m.length ∧ m.getD i false = true ∧
        ∃ j, j < stride ∧ ∃ l, l < stride ∧
          gt.getD (i * stride + j) 0 ≠ gt.getD (i * stride + l) 0 := by
  have hco : verify gt m = false ↔ ¬ (verify gt m = true) := by
    cases hb : verify gt m <;> simp
  rw [hco, verify_eq_true_iff m stride gt hn hlen]
  push_neg
  constructor
  · rintro ⟨i, hi, hflag, j, hj1, hj2, hne⟩
    exact ⟨i, hi, hflag, 0, by omega, j, hj2, by rw [Nat.add_zero]; exact hne⟩
  · rintro ⟨i, hi, hflag, j, hj, l, hl, hne⟩
    refine ⟨i, hi, hflag, ?_⟩
    by_cases h0 : gt.getD (i * stride + j) 0 = gt.getD (i * stride) 0
    · refine ⟨l, ?_, hl, ?_⟩
      · by_contra hl0
        push_neg at hl0
        have hl0' : l = 0 := by omega
        subst hl0'
        rw [Nat.add_zero] at hne
        exact hne h0
      · intro heq
        exact hne (h0.trans heq)
    · refine ⟨j, ?_, hj, fun heq => h0 heq.symm⟩
      by_contra hj0
      push_neg at hj0
      have hj0' : j = 0 := by omega
      subst hj0'
      rw [Nat.add_zero] at h0
      exact h0 rfl

theorem verifier_sound_complete_witness :
    ((1 : Nat) ≤ List.length [true] ∧
      List.length ([0, 1] : List gt_type) = List.length [true] * 2) ∧
    (verify ([0, 1] : List gt_type) [true] = false ↔
      ∃ i, i < List.length [true] ∧ List.getD [true] i false = true ∧
        ∃ j, j < 2 ∧ ∃ l, l < 2 ∧
          ([0, 1] : List gt_type).getD (i * 2 + j) 0 ≠
            ([0, 1] : List gt_type).getD (i * 2 + l) 0) :=
  ⟨⟨by decide, by decide⟩, verifier_sound_complete [true] 2 [0, 1] (by decide) (by decide)⟩

/-! ## Sex-map parsing and ploidy-map construction -/

/-- Worker for `split_string_to_vector`: scan the characters, emitting the
accumulated token at each delimiter and a final token at the end of input. -/
def splitAux (delim : Char) : List Char → List Char → List (List Char)
  | [], acc => [acc.reverse]
  | c :: rest, acc =>
    if c = delim then acc.reverse :: splitAux delim rest []
    else splitAux delim rest (c :: acc)

/-- `split_string_to_vector` (src/main.cpp lines 14-28): split a string on a
delimiter; one token per delimiter-separated (possibly empty) segment, so the
result always has at least one token. -/
def split_string_to_vector (s : String) (delim : Char) : List String :=
  (splitAux delim s.data []).map (fun cs => String.mk cs)

/-- The `id_to_idx` lookup of `main` (src/main.cpp lines 233-236): an
`unordered_map` filled with `id_to_idx[samples[i]] = i` for ascending `i`, so
for a duplicated ID the later (larger) index wins. -/
def id_to_idx (sampleIds : List String) (id : String) : Option Nat :=
  (List.range sampleIds.length).foldl
    (fun acc i => if sampleIds.getD i "" = id then some i else acc) none

/-- The sex-map reading loop of `main` (src/main.cpp lines 240-256): for each
line, split on tabs; fewer than two fields is a fatal error; an unknown sample
ID only logs a warning (collected here in `ws`); a known sample's flag is
cleared when its code differs from the configured haploid code, and is left
untouched otherwise. -/
def buildSexMap (sampleIds : List String) (hcode : String) :
    List String → List Bool → List String → Except Unit (List Bool × List String)
  | [], m, ws => Except.ok (m, ws)
  | line :: rest, m, ws =>
    let fields := split_string_to_vector line '\t'
    if fields.length < 2 then Except.error ()
    else
      match id_to_idx sampleIds (fields.getD 0 "") with
      | none => buildSexMap sampleIds hcode rest m (ws ++ [fields.getD 0 ""])
      | some idx =>
        if fields.getD 1 "" ≠ hcode then
          buildSexMap sampleIds hcode rest (m.set idx false) ws
        else
          buildSexMap sampleIds hcode rest m ws

/-! ## The streaming pipeline -/

/-- The per-record reduction of `main`'s streaming loop, without the optional
verification (src/main.cpp lines 270-293): full reduction when every flag is
set (`haploid_count == samples().size()`), partial reduction otherwise. -/
def reduceRecord (m : List Bool) (hc : Nat) (gt : List gt_type) : List gt_type :=
  if hc = m.length then fullReduce (strideOf gt m) hc gt
  else partialReduce (strideOf gt m) m gt

/-- One iteration of `main`'s streaming loop on one record's genotype buffer
(src/main.cpp lines 270-293): in either branch, when verification is enabled
and `verify` fails the run returns `EXIT_FAILURE` (`Except.error`); otherwise
the reduced buffer is produced. -/
def processRecord (vf : Bool) (m : List Bool) (hc : Nat) (gt : List gt_type) :
    Except Unit (List gt_type) :=
  if hc = m.length then
    if vf && !(verify gt m) then Except.error ()
    else Except.ok (fullReduce (strideOf gt m) hc gt)
  else
    if vf && !(verify gt m) then Except.error ()
    else Except.ok (partialReduce (strideOf gt m) m gt)

/-- The streaming loop of `main` (src/main.cpp lines 264-297): process records
in order, writing each transformed buffer to the output; a verification
failure stops immediately with failure status, leaving earlier writes in
place.  Returns (written records, success flag). -/
def streamRecords (vf : Bool) (m : List Bool) (hc : Nat) :
    List (List gt_type) → List (List gt_type) × Bool
  | [] => ([], true)
  | gt :: rest =>
    match processRecord vf m hc gt with
    | Except.error _ => ([], false)
    | Except.ok out =>
      let res := streamRecords vf m hc rest
      (out :: res.1, res.2)

/-- `main` after option parsing and file opening (src/main.cpp lines 230-300):
build the ploidy map (all flags initialized `true`, then the sex map applied
when one is supplied; a malformed map aborts before any record is read),
compute `haploid_count`, and stream the records. -/
def runMain (vf : Bool) (hcode : String) (sexMapLines : Option (List String))
    (sampleIds : List String) (records : List (List gt_type)) :
    List (List gt_type) × Bool :=
  let m0 := List.replicate sampleIds.length true
  match sexMapLines with
  | none => streamRecords vf m0 (haploid_count m0) records
  | some lines =>
    match buildSexMap sampleIds hcode lines m0 [] with
    | Except.error _ => ([], false)
    | Except.ok (m, _) => streamRecords vf m (haploid_count m) records

/-! ## Pipeline lemmas -/

theorem haploid_count_replicate_true (n : Nat) :
    haploid_count (List.replicate n true) = n := by
  have hgen : ∀ (k acc : Nat),
      (List.replicate k true).foldl (fun a b => a + (if b then 1 else 0)) acc =
        acc + k := by
    intro k
    induction k with
    | zero => intro acc; simp
    | succ k ih =>
      intro acc
      rw [List.replicate_succ, List.foldl_cons, ih]
      simp
      omega
  rw [haploid_count, hgen]
  omega

theorem id_to_idx_lt (sampleIds : List String) (id : String) (i : Nat)
    (h : id_to_idx sampleIds id = some i) : i < sampleIds.length := by
  have hgen : ∀ (l : List Nat) (acc : Option Nat),
      (∀ x ∈ l, x < sampleIds.length) →
      (∀ j, acc = some j → j < sampleIds.length) →
      ∀ j, l.foldl (fun a k => if sampleIds.getD k "" = id then some k else a) acc =
        some j → j < sampleIds.length := by
    intro l
    induction l with
    | nil => intro acc _ hacc j hj; exact hacc j hj
    | cons x xs ih =>
      intro acc hmem hacc j hj
      rw [List.foldl_cons] at hj
      refine ih _ (fun y hy => hmem y (List.mem_cons_of_mem x hy)) ?_ j hj
      intro j' hj'
      by_cases hx : sampleIds.getD x "" = id
      · rw [if_pos hx] at hj'
        cases hj'
        exact hmem x (List.mem_cons_self x xs)
      · rw [if_neg hx] at hj'
        exact hacc j' hj'
  exact hgen (List.range sampleIds.length) none
    (fun x hx => List.mem_range.mp hx) (fun j hj => Option.noConfusion hj) i h

theorem processRecord_ok_of_verify (m : List Bool) (hc : Nat) (gt : List gt_type)
    (h : verify gt m = true) :
    processRecord true m hc gt = Except.ok (reduceRecord m hc gt) := by
  by_cases hbr : hc = m.length
  · simp [processRecord, reduceRecord, hbr, h]
  · simp [processRecord, reduceRecord, hbr, h]

theorem processRecord_error_of_verify (m : List Bool) (hc : Nat) (gt : List gt_type)
    (h : verify gt m = false) :
    processRecord true m hc gt = Except.error () := by
  by_cases hbr : hc = m.length
  · simp [processRecord, hbr, h]
  · simp [processRecord, hbr, h]

theorem processRecord_no_verify (m : List Bool) (hc : Nat) (gt : List gt_type) :
    processRecord false m hc gt = Except.ok (reduceRecord m hc gt) := by
  by_cases hbr : hc = m.length
  · simp [processRecord, reduceRecord, hbr]
  · simp [processRecord, reduceRecord, hbr]

theorem buildSexMap_error_of_malformed (sampleIds : List String) (hcode : String) :
    ∀ (lines : List String) (m : List Bool) (ws : List String),
      (∃ l ∈ lines, (split_string_to_vector l '\t').length < 2) →
      buildSexMap sampleIds hcode lines m ws = Except.error () := by
  intro lines
  induction lines with
  | nil => intro m ws h; obtain ⟨l, hl, _⟩ := h; exact absurd hl (List.not_mem_nil l)
  | cons line rest ih =>
    intro m ws h
    by_cases hbad : (split_string_to_vector line '\t').length < 2
    · simp only [buildSexMap]
      rw [if_pos hbad]
    · have hrest : ∃ l ∈ rest, (split_string_to_vector l '\t').length < 2 := by
        obtain ⟨l, hl, hlbad⟩ := h
        rcases List.mem_cons.mp hl with heq | hmem
        · subst heq; exact absurd hlbad hbad
        · exact ⟨l, hmem, hlbad⟩
      simp only [buildSexMap]
      rw [if_neg hbad]
      cases hfind : id_to_idx sampleIds ((split_string_to_vector line '\t').getD 0 "") with
      | none => exact ih _ _ hrest
      | some idx =>
        dsimp only
        by_cases hcodes : (split_string_to_vector line '\t').getD 1 "" ≠ hcode
        · rw [if_pos hcodes]; exact ih _ _ hrest
        · rw [if_neg hcodes]; exact ih _ _ hrest

/-- C4: Verification failure aborts without writing — with verification
enabled, when the verifier fails on a record, that record is not written, no
later record is processed, the run ends with failure status, and the records
written before the failing one remain written. -/
theorem verification_failure_aborts (m : List Bool) (hc : Nat)
    (pre post : List (List gt_type)) (r : List gt_type)
    (hpre : ∀ g ∈ pre, verify g m = true) (hr : verify r m = false) :
    streamRecords true m hc (pre ++ r :: post) =
      (pre.map (reduceRecord m hc), false) := by
  induction pre with
  | nil =>
    simp only [List.nil_append, List.map_nil]
    rw [streamRecords, processRecord_error_of_verify m hc r hr]
  | cons g pre ih =>
    have hg : verify g m = true := hpre g (List.mem_cons_self g pre)
    have hrest := ih (fun g' hg' => hpre g' (List.mem_cons_of_mem g hg'))
    simp only [List.cons_append, List.map_cons]
    rw [streamRecords, processRecord_ok_of_verify m hc g hg]
    dsimp only
    rw [hrest]

theorem verification_failure_aborts_witness :
    ((∀ g ∈ [([1, 1] : List gt_type)], verify g [true] = true) ∧
      verify ([0, 1] : List gt_type) [true] = false) ∧
    streamRecords true [true] 1 [[1, 1], [0, 1], [2, 2]] =
      ([([1, 1] : List gt_type)].map (reduceRecord [true] 1), false) :=
  ⟨⟨by decide, by decide⟩,
    verification_failure_aborts [true] 1 [[1, 1]] [[2, 2]] [0, 1]
      (by decide) (by decide)⟩

/-- C6 evidence: the source has no zero-sample guard.  With an empty sample
list the pipeline reaches `stride = gt.size() / sex_map.size()` with
`sex_map.size() == 0` — division by zero (undefined behaviour in C++; Lean's
total `Nat` division returns 0 here) — and then proceeds to write the record
and exit with success, instead of failing fast with a `ZeroSampleError` as the
spec requires. -/
theorem zero_sample_no_guard :
    runMain false "0" none [] [[]] = ([[]], true) := rfl

theorem streamRecords_mem_full (vf : Bool) (m : List Bool) (hc : Nat)
    (hhc : hc = m.length) :
    ∀ (records : List (List gt_type)) (out : List gt_type),
      out ∈ (streamRecords vf m hc records).1 →
      ∃ g ∈ records, out = fullReduce (strideOf g m) hc g := by
  intro records
  induction records with
  | nil => intro out h; exact absurd h (List.not_mem_nil out)
  | cons g rest ih =>
    intro out h
    rw [streamRecords] at h
    cases hp : processRecord vf m hc g with
    | error e =>
      rw [hp] at h
      dsimp only at h
      exact absurd h (List.not_mem_nil out)
    | ok o =>
      rw [hp] at h
      dsimp only at h
      have ho : o = fullReduce (strideOf g m) hc g := by
        unfold processRecord at hp
        rw [if_pos hhc] at hp
        by_cases hv : (vf && !(verify g m)) = true
        · rw [if_pos hv] at hp; exact Except.noConfusion hp
        · rw [if_neg hv] at hp
          injection hp with h'
          exact h'.symm
      rcases List.mem_cons.mp h with heq | hmem
      · exact ⟨g, List.mem_cons_self g rest, heq.trans ho⟩
      · obtain ⟨g', hg', ho'⟩ := ih out hmem
        exact ⟨g', List.mem_cons_of_mem g hg', ho'⟩

/-- C7: No-sex-map default — with no sex map supplied every flag starts (and
stays) `true`, so `haploid_count` equals the sample count, every record goes
through the full-reduction branch, and every record the run writes has exactly
one value per sample (stride 1: its length is the sample count). -/
theorem no_sex_map_all_haploid (vf : Bool) (hcode : String)
    (sampleIds : List String) (records : List (List gt_type)) :
    haploid_count (List.replicate sampleIds.length true) = sampleIds.length ∧
    ∀ out ∈ (runMain vf hcode none sampleIds records).1,
      (∃ g ∈ records,
        out = fullReduce (strideOf g (List.replicate sampleIds.length true))
          sampleIds.length g) ∧
      out.length = sampleIds.length := by
  have hm0 : haploid_count (List.replicate sampleIds.length true) = sampleIds.length :=
    haploid_count_replicate_true _
  refine ⟨hm0, ?_⟩
  intro out hout
  have hrun : runMain vf hcode none sampleIds records =
      streamRecords vf (List.replicate sampleIds.length true)
        (haploid_count (List.replicate sampleIds.length true)) records := rfl
  rw [hrun, hm0] at hout
  have hlen : (List.replicate sampleIds.length true).length = sampleIds.length :=
    List.length_replicate _ _
  obtain ⟨g, hg, hout_eq⟩ :=
    streamRecords_mem_full vf _ _ hlen.symm records out hout
  exact ⟨⟨g, hg, hout_eq⟩, by rw [hout_eq, fullReduce_length]⟩

theorem no_sex_map_all_haploid_witness :
    ([1, 0] : List gt_type) ∈ (runMain false "0" none ["s1", "s2"] [[1, 1, 0, 0]]).1 ∧
    ((∃ g ∈ [([1, 1, 0, 0] : List gt_type)],
      ([1, 0] : List gt_type) =
        fullReduce (strideOf g (List.replicate (List.length ["s1", "s2"]) true))
          (List.length ["s1", "s2"]) g) ∧
      ([1, 0] : List gt_type).length = List.length ["s1", "s2"]) :=
  ⟨by decide,
    (no_sex_map_all_haploid false "0" ["s1", "s2"] [[1, 1, 0, 0]]).2 [1, 0] (by decide)⟩

/-- C8: Sex-map line error handling — a line with fewer than two tab-delimited
fields aborts the run with failure status before any record is streamed
(nothing is written); a well-formed line whose sample ID is unknown only
appends a warning and continues with the ploidy map unchanged. -/
theorem sex_map_line_handling :
    (∀ (vf : Bool) (hcode : String) (lines sampleIds : List String)
      (records : List (List gt_type)),
      (∃ l ∈ lines, (split_string_to_vector l '\t').length < 2) →
      runMain vf hcode (some lines) sampleIds records = ([], false)) ∧
    (∀ (sampleIds : List String) (hcode line : String) (rest : List String)
      (m : List Bool) (ws : List String),
      ¬ (split_string_to_vector line '\t').length < 2 →
      id_to_idx sampleIds ((split_string_to_vector line '\t').getD 0 "") = none →
      buildSexMap sampleIds hcode (line :: rest) m ws =
        buildSexMap sampleIds hcode rest m
          (ws ++ [(split_string_to_vector line '\t').getD 0 ""])) := by
  constructor
  · intro vf hcode lines sampleIds records hbad
    have herr := buildSexMap_error_of_malformed sampleIds hcode lines
      (List.replicate sampleIds.length true) [] hbad
    simp only [runMain]
    rw [herr]
  · intro sampleIds hcode line rest m ws hwf hnone
    simp only [buildSexMap]
    rw [if_neg hwf, hnone]

theorem sex_map_line_handling_witness :
    ((∃ l ∈ ["s1"], (split_string_to_vector l '\t').length < 2) ∧
      runMain false "0" (some ["s1"]) ["s1"] [[1]] = ([], false)) ∧
    ((¬ (split_string_to_vector "s3\t1" '\t').length < 2) ∧
      id_to_idx ["s1"] ((split_string_to_vector "s3\t1" '\t').getD 0 "") = none ∧
      buildSexMap ["s1"] "0" ["s3\t1"] [true] [] =
        buildSexMap ["s1"] "0" [] [true]
          ([] ++ [(split_string_to_vector "s3\t1" '\t').getD 0 ""])) :=
  ⟨⟨by decide, (sex_map_line_handling).1 false "0" ["s1"] ["s1"] [[1]] (by decide)⟩,
   ⟨by decide, by decide,
     (sex_map_line_handling).2 ["s1"] "0" "s3\t1" [] [true] [] (by decide) (by decide)⟩⟩

/-- C5 counterexample: last-write-wins fails on the code.  Sample `s1` with
haploid code `"0"` and the two map lines `s1<TAB>1` then `s1<TAB>0`: the
claim says the final flag is decided by the last line alone (code `"0"`
equals the haploid code, so the flag should be `true`), but the code leaves
the flag `false`, because a line whose code equals the haploid code assigns
nothing at all (`if (fields[1] != haploid_code) sex_map[idx] = 0;`). -/
theorem sex_map_not_last_write_wins :
    buildSexMap ["s1"] "0" ["s1\t1", "s1\t0"] [true] [] =
      Except.ok ([false], ([] : List String)) ∧
    ([false] : List Bool) ≠ [true] :=
  ⟨rfl, by decide⟩

/-- C5 amended: duplicate sex-map lines for the same known sample are not
last-write-wins but sticky-false — a line clears the flag when its code
differs from the haploid code and otherwise leaves the flag untouched, so the
final flag is `false` iff it started `false` or at least one line (not
necessarily the last) for that sample carries a non-haploid code. -/
theorem sex_map_flag_sticky (sampleIds : List String) (hcode : String) :
    ∀ (lines : List String) (m : List Bool) (ws : List String) (idx : Nat) (d : Bool),
      m.length = sampleIds.length →
      (∀ l ∈ lines, ¬ (split_string_to_vector l '\t').length < 2) →
      ∀ m' ws', buildSexMap sampleIds hcode lines m ws = Except.ok (m', ws') →
        (m'.getD idx d = false ↔
          (m.getD idx d = false ∨ ∃ l ∈ lines,
            id_to_idx sampleIds ((split_string_to_vector l '\t').getD 0 "") = some idx ∧
            (split_string_to_vector l '\t').getD 1 "" ≠ hcode)) := by
  intro lines
  induction lines with
  | nil =>
    intro m ws idx d hmlen hwf m' ws' hok
    simp only [buildSexMap] at hok
    injection hok with hpair
    injection hpair with h1 h2
    subst h1
    simp
  | cons line rest ih =>
    intro m ws idx d hmlen hwf m' ws' hok
    have hwfl : ¬ (split_string_to_vector line '\t').length < 2 :=
      hwf line (List.mem_cons_self line rest)
    have hwfr : ∀ l ∈ rest, ¬ (split_string_to_vector l '\t').length < 2 :=
      fun l hl => hwf l (List.mem_cons_of_mem line hl)
    simp only [buildSexMap] at hok
    rw [if_neg hwfl] at hok
    cases hfind : id_to_idx sampleIds ((split_string_to_vector line '\t').getD 0 "") with
    | none =>
      rw [hfind] at hok
      dsimp only at hok
      rw [ih m (ws ++ [(split_string_to_vector line '\t').getD 0 ""]) idx d
        hmlen hwfr m' ws' hok]
      constructor
      · intro h
        rcases h with h | ⟨l, hl, hsome, hne⟩
        · exact Or.inl h
        · exact Or.inr ⟨l, List.mem_cons_of_mem line hl, hsome, hne⟩
      · intro h
        rcases h with h | ⟨l, hl, hsome, hne⟩
        · exact Or.inl h
        · rcases List.mem_cons.mp hl with heq | hmem
          · subst heq
            rw [hfind] at hsome
            exact Option.noConfusion hsome
          · exact Or.inr ⟨l, hmem, hsome, hne⟩
    | some k =>
      rw [hfind] at hok
      dsimp only at hok
      have hklt : k < sampleIds.length := id_to_idx_lt _ _ _ hfind
      by_cases hcodes : (split_string_to_vector line '\t').getD 1 "" ≠ hcode
      · rw [if_pos hcodes] at hok
        rw [ih (m.set k false) ws idx d (by rw [List.length_set]; exact hmlen)
          hwfr m' ws' hok]
        by_cases hik : idx = k
        · subst hik
          have hset : (m.set idx false).getD idx d = false :=
            getD_set_self m idx false d (by omega)
          rw [hset]
          constructor
          · intro _
            exact Or.inr ⟨line, List.mem_cons_self line rest, hfind, hcodes⟩
          · intro _
            exact Or.inl rfl
        · have hset : (m.set k false).getD idx d = m.getD idx d :=
            getD_set_ne m false d (fun h => hik h.symm)
          rw [hset]
          constructor
          · intro h
            rcases h with h | ⟨l, hl, hsome, hne⟩
            · exact Or.inl h
            · exact Or.inr ⟨l, List.mem_cons_of_mem line hl, hsome, hne⟩
          · intro h
            rcases h with h | ⟨l, hl, hsome, hne⟩
            · exact Or.inl h
            · rcases List.mem_cons.mp hl with heq | hmem
              · subst heq
                rw [hfind] at hsome
                injection hsome with hk
                exact absurd hk.symm hik
              · exact Or.inr ⟨l, hmem, hsome, hne⟩
      · rw [if_neg hcodes] at hok
        rw [ih m ws idx d hmlen hwfr m' ws' hok]
        constructor
        · intro h
          rcases h with h | ⟨l, hl, hsome, hne⟩
          · exact Or.inl h
          · exact Or.inr ⟨l, List.mem_cons_of_mem line hl, hsome, hne⟩
        · intro h
          rcases h with h | ⟨l, hl, hsome, hne⟩
          · exact Or.inl h
          · rcases List.mem_cons.mp hl with heq | hmem
            · subst heq
              exact absurd hne hcodes
            · exact Or.inr ⟨l, hmem, hsome, hne⟩

theorem sex_map_flag_sticky_witness :
    (List.length [true] = List.length ["s1"] ∧
      (∀ l ∈ ["s1\t1", "s1\t0"], ¬ (split_string_to_vector l '\t').length < 2)) ∧
    (List.getD [false] 0 true = false ↔
      (List.getD [true] 0 true = false ∨ ∃ l ∈ ["s1\t1", "s1\t0"],
        id_to_idx ["s1"] ((split_string_to_vector l '\t').getD 0 "") = some 0 ∧
        (split_string_to_vector l '\t').getD 1 "" ≠ "0")) :=
  ⟨⟨by decide, by decide⟩,
    sex_map_flag_sticky ["s1"] "0" ["s1\t1", "s1\t0"] [true] [] 0 true
      (by decide) (by decide) [false] [] rfl⟩

end Di2hap
